import Mathlib

/-!
# Ad Performance Aggregator — verification development

Shallow embedding of `src/ad_performance_aggregator/src/main.rs` (a CLI
that streams a CSV of ad-campaign events, aggregates per-campaign totals,
and writes two ranked top-10 reports), together with proofs about it.

Modelling conventions:
* `u64` fields become `Nat` (the program treats them as unsigned counters).
* `f64` (the `spend` column and the derived ratios) becomes `ℚ`: exact
  rational arithmetic standing in for floating-point arithmetic, so the
  comparators below never see a `NaN` and `partial_cmp` is total.
* The `HashMap<String, CampaignAggregation>` becomes an association list
  holding one entry per key, in key-insertion order.  Rust's
  `HashMap::into_values` iterates in an unspecified (randomly seeded)
  order, so every theorem about the read-out collection either holds for
  an arbitrary collection or exposes the dependence on that order.
* CSV input is modelled after the `csv` crate split a line into cells
  (`RawRow`); `serde`'s numeric conversions become the parsers below.
* CSV output is modelled as the list of emitted lines (`CsvLine`).  The
  `csv` crate emits the header row lazily, together with the first
  serialized record, which `write_ctr_report`/`write_cpa_report` mirror.
-/

/-- One data row of the input CSV after the `csv` crate split it into the
six header-matched cells, before `serde` converts the numeric columns. -/
structure RawRow where
  campaign_id : String
  date : String
  impressions : String
  clicks : String
  spend : String
  conversions : String
deriving DecidableEq

/-- `AdRecord`: a typed row of the input CSV (`main.rs` lines 67-78). -/
structure AdRecord where
  campaign_id : String
  date : String
  impressions : Nat
  clicks : Nat
  spend : ℚ
  conversions : Nat
deriving DecidableEq

/-- `CampaignAggregation`: the per-campaign accumulator (lines 85-92). -/
structure CampaignAggregation where
  campaign_id : String
  total_impressions : Nat
  total_clicks : Nat
  total_spend : ℚ
  total_conversions : Nat
deriving DecidableEq

/-- `CampaignAggregation::new`: seed an accumulator from one record. -/
def CampaignAggregation.new (record : AdRecord) : CampaignAggregation where
  campaign_id := record.campaign_id
  total_impressions := record.impressions
  total_clicks := record.clicks
  total_spend := record.spend
  total_conversions := record.conversions

/-- `CampaignAggregation::add`: fold one more record into the totals. -/
def CampaignAggregation.add (self : CampaignAggregation) (record : AdRecord) :
    CampaignAggregation where
  campaign_id := self.campaign_id
  total_impressions := self.total_impressions + record.impressions
  total_clicks := self.total_clicks + record.clicks
  total_spend := self.total_spend + record.spend
  total_conversions := self.total_conversions + record.conversions

/-- `CampaignAggregation::ctr`: `None` when there are no impressions. -/
def CampaignAggregation.ctr (self : CampaignAggregation) : Option ℚ :=
  if self.total_impressions = 0 then none
  else some ((self.total_clicks : ℚ) / (self.total_impressions : ℚ))

/-- `CampaignAggregation::cpa`: `None` when there are no conversions. -/
def CampaignAggregation.cpa (self : CampaignAggregation) : Option ℚ :=
  if self.total_conversions = 0 then none
  else some (self.total_spend / (self.total_conversions : ℚ))

/-- `CampaignOutput`: one serialized report row (lines 152-161); an
`Option` in the `cpa` column serializes as an empty cell when `none`. -/
structure CampaignOutput where
  campaign_id : String
  impressions : Nat
  clicks : Nat
  spend : ℚ
  conversions : Nat
  ctr : ℚ
  cpa : Option ℚ
deriving DecidableEq

/-- The value of a cell made only of decimal digits (at least one). -/
def digitsVal? (cs : List Char) : Option Nat :=
  if cs.isEmpty then none
  else if cs.all Char.isDigit then
    some (cs.foldl (fun n c => 10 * n + (c.toNat - '0'.toNat)) 0)
  else none

/-- `serde`'s `u64` conversion of a CSV cell: unsigned-integer text only
(negative, fractional or non-numeric text is rejected). -/
def parseU64 (s : String) : Option Nat :=
  digitsVal? s.data

/-- `serde`'s `f64` conversion of a CSV cell, restricted to plain decimal
numerals `[-]digits[.digits]` and read exactly into `ℚ`. -/
def parseF64 (s : String) : Option ℚ :=
  let unsignedVal : List Char → Option ℚ := fun cs =>
    match digitsVal? (cs.takeWhile (fun c => c ≠ '.')),
          cs.dropWhile (fun c => c ≠ '.') with
    | some w, [] => some (w : ℚ)
    | some w, _dot :: frac =>
      match digitsVal? frac with
      | some f => some ((w : ℚ) + (f : ℚ) / (10 : ℚ) ^ frac.length)
      | none => none
    | none, _ => none
  match s.data with
  | '-' :: rest => (unsignedVal rest).map (fun q => -q)
  | cs => unsignedVal cs

/-- The error the `csv`/`serde` layer reports for a row whose numeric
cells fail conversion; the offending row is carried as context. -/
inductive RunError where
  | parse (row : RawRow) : RunError
deriving DecidableEq

/-- Deserializing one CSV row into an `AdRecord` (the `result?` at line
223): any numeric cell that fails conversion fails the whole row. -/
def deserializeRow (row : RawRow) : Except RunError AdRecord :=
  match parseU64 row.impressions, parseU64 row.clicks,
        parseF64 row.spend, parseU64 row.conversions with
  | some i, some c, some s, some v =>
    .ok ⟨row.campaign_id, row.date, i, c, s, v⟩
  | _, _, _, _ => .error (.parse row)

/-- `.entry(key).and_modify(|agg| agg.add(&record)).or_insert(new)` on the
aggregation map, modelled on an association list with one entry per key. -/
def upsert (record : AdRecord) :
    List CampaignAggregation → List CampaignAggregation
  | [] => [CampaignAggregation.new record]
  | a :: t =>
    if a.campaign_id = record.campaign_id then a.add record :: t
    else a :: upsert record t

/-- The aggregation table after the streaming pass over typed records
(the loop at lines 221-238), entries in key-insertion order. -/
def aggregations (records : List AdRecord) : List CampaignAggregation :=
  records.foldl (fun t r => upsert r t) []

/-- The streaming loop itself: deserialize one row at a time and fold it
into the table; the first failing row aborts with its error. -/
def foldRows : List RawRow → List CampaignAggregation →
    Except RunError (List CampaignAggregation)
  | [], t => .ok t
  | row :: rest, t =>
    match deserializeRow row with
    | .error e => .error e
    | .ok record => foldRows rest (upsert record t)

/-- `partial_cmp` on two floats, which are never `NaN` in this model. -/
def cmpQ (x y : ℚ) : Ordering :=
  if x < y then .lt else if y < x then .gt else .eq

/-- The closure passed to `campaigns.sort_by` for the CTR ranking (lines
255-263): descending by CTR, undefined CTR strictly after defined. -/
def ctrComparator (a b : CampaignAggregation) : Ordering :=
  match a.ctr, b.ctr with
  | some x, some y => cmpQ y x
  | some _, none => .lt
  | none, some _ => .gt
  | none, none => .eq

/-- The closure passed to `sort_by` for the CPA ranking (lines 282-288):
ascending by CPA; pairs with an undefined side compare as equal. -/
def cpaComparator (a b : CampaignAggregation) : Ordering :=
  match a.cpa, b.cpa with
  | some x, some y => cmpQ x y
  | _, _ => .eq

/-- "`a` need not come after `b`": the order a stable comparator sort
establishes along the list. -/
def ctrLe (a b : CampaignAggregation) : Prop :=
  ctrComparator a b ≠ .gt

/-- Same as `ctrLe`, for the CPA comparator. -/
def cpaLe (a b : CampaignAggregation) : Prop :=
  cpaComparator a b ≠ .gt

instance decCtrLe : DecidableRel ctrLe := fun a b => by
  unfold ctrLe
  infer_instance

instance decCpaLe : DecidableRel cpaLe := fun a b => by
  unfold cpaLe
  infer_instance

/-- `campaigns.sort_by(ctr comparator)`: Rust's `sort_by` is stable, and a
stable sort under a total preorder is insertion sort with the non-strict
"not greater" relation. -/
def sortByCtr (campaigns : List CampaignAggregation) :
    List CampaignAggregation :=
  List.insertionSort ctrLe campaigns

/-- `campaigns.iter().take(10)` after the CTR sort (line 266). -/
def top10_ctr (campaigns : List CampaignAggregation) :
    List CampaignAggregation :=
  (sortByCtr campaigns).take 10

/-- `campaigns.iter().filter(|c| c.total_conversions > 0)` (lines 277-280). -/
def campaigns_with_conversions (campaigns : List CampaignAggregation) :
    List CampaignAggregation :=
  campaigns.filter (fun c => 0 < c.total_conversions)

/-- The CPA sort over the filtered collection (lines 282-288). -/
def sortByCpa (campaigns : List CampaignAggregation) :
    List CampaignAggregation :=
  List.insertionSort cpaLe (campaigns_with_conversions campaigns)

/-- `.take(10)` after the CPA sort (line 291). -/
def top10_cpa (campaigns : List CampaignAggregation) :
    List CampaignAggregation :=
  (sortByCpa campaigns).take 10

/-- A line of an output CSV file: the header, or one data row. -/
inductive CsvLine where
  | header : CsvLine
  | data (row : CampaignOutput) : CsvLine
deriving DecidableEq

/-- Building one `CampaignOutput` from an accumulator (lines 314-322):
`ctr` defaults to `0` via `unwrap_or(0.0)`, `cpa` stays optional. -/
def toOutput (campaign : CampaignAggregation) : CampaignOutput where
  campaign_id := campaign.campaign_id
  impressions := campaign.total_impressions
  clicks := campaign.total_clicks
  spend := campaign.total_spend
  conversions := campaign.total_conversions
  ctr := (campaign.ctr).getD 0
  cpa := campaign.cpa

/-- `write_ctr_report`: the lines the `csv` writer emits.  The crate
writes the header together with the first serialized record, so an empty
report yields an empty file. -/
def write_ctr_report (campaigns : List CampaignAggregation) : List CsvLine :=
  match campaigns with
  | [] => []
  | _ => .header :: campaigns.map (fun c => .data (toOutput c))

/-- `write_cpa_report`: identical emission logic (lines 334-358). -/
def write_cpa_report (campaigns : List CampaignAggregation) : List CsvLine :=
  match campaigns with
  | [] => []
  | _ => .header :: campaigns.map (fun c => .data (toOutput c))

/-- The two files `run` writes on success. -/
structure RunOutput where
  ctrFile : List CsvLine
  cpaFile : List CsvLine
deriving DecidableEq

/-- The ranking-and-writing stage of `run`, applied to the collection
`into_values()` yields in some order. -/
def reportsOn (campaigns : List CampaignAggregation) : RunOutput where
  ctrFile := write_ctr_report (top10_ctr campaigns)
  cpaFile := write_cpa_report (top10_cpa campaigns)

/-- `run` (lines 188-298), with the table read out in key-insertion order
(one possible `into_values()` order; `reportsOn` exposes how the output
depends on that order). -/
def run (rows : List RawRow) : Except RunError RunOutput :=
  (foldRows rows []).map reportsOn

/-- `main` (lines 167-179): process exit status 1 on `Err`, 0 otherwise. -/
def exitCode (result : Except RunError RunOutput) : Nat :=
  match result with
  | .ok _ => 0
  | .error _ => 1

/-- The map lookup at a key, as `HashMap::get`: the entry whose
`campaign_id` is `c`, if any (first match in the association list). -/
def lookupCampaign (c : String) : List CampaignAggregation →
    Option CampaignAggregation
  | [] => none
  | a :: t => if a.campaign_id = c then some a else lookupCampaign c t

/-- The input rows carrying campaign identifier `c`, in input order. -/
def rowsFor (c : String) : List AdRecord → List AdRecord
  | [] => []
  | r :: rs => if r.campaign_id = c then r :: rowsFor c rs else rowsFor c rs

/-- The accumulator the spec promises for campaign `c`: the four exact
field sums over that campaign's rows. -/
def totalsRow (c : String) (records : List AdRecord) : CampaignAggregation where
  campaign_id := c
  total_impressions := ((rowsFor c records).map AdRecord.impressions).sum
  total_clicks := ((rowsFor c records).map AdRecord.clicks).sum
  total_spend := ((rowsFor c records).map AdRecord.spend).sum
  total_conversions := ((rowsFor c records).map AdRecord.conversions).sum

/-- The four totals of an accumulator, as one tuple. -/
def aggTotals (a : CampaignAggregation) : Nat × Nat × ℚ × Nat :=
  (a.total_impressions, a.total_clicks, a.total_spend, a.total_conversions)

example : parseU64 "1000" = some 1000 := by decide
example : parseU64 "abc" = none := by decide
example : parseU64 "-3" = none := by decide
example : parseF64 "25.00" = some 25 := by
  show (some ((25 : ℚ) + (0 : ℚ) / (10 : ℚ) ^ 2) : Option ℚ) = some 25
  norm_num
example : parseF64 "0.05" = some (1 / 20 : ℚ) := by
  show (some ((0 : ℚ) + (5 : ℚ) / (10 : ℚ) ^ 2) : Option ℚ) = some (1 / 20 : ℚ)
  norm_num
example : parseF64 "-1.5" = some (-(3 / 2) : ℚ) := by
  show (some (-((1 : ℚ) + (5 : ℚ) / (10 : ℚ) ^ 1)) : Option ℚ) =
    some (-(3 / 2) : ℚ)
  norm_num
example : parseF64 "x" = none := by decide

/-!  ## The aggregation table characterized  -/

theorem lookupCampaign_upsert (c : String) (r : AdRecord)
    (t : List CampaignAggregation) :
    lookupCampaign c (upsert r t) =
      if c = r.campaign_id then
        some ((lookupCampaign c t).elim (CampaignAggregation.new r)
          (fun a => a.add r))
      else lookupCampaign c t := by
  induction t with
  | nil =>
    by_cases h : c = r.campaign_id
    · simp [upsert, lookupCampaign, CampaignAggregation.new, h]
    · have h' : ¬ r.campaign_id = c := fun hh => h hh.symm
      simp [upsert, lookupCampaign, CampaignAggregation.new, h, h']
  | cons a t ih =>
    by_cases ha : a.campaign_id = r.campaign_id
    · by_cases hc : c = r.campaign_id
      · have hac : a.campaign_id = c := by rw [ha, hc]
        simp [upsert, ha, lookupCampaign, CampaignAggregation.add, hac, hc]
      · have hac : ¬ a.campaign_id = c := fun h => hc (by rw [← h, ha])
        have h' : ¬ r.campaign_id = c := fun hh => hc hh.symm
        simp [upsert, ha, lookupCampaign, CampaignAggregation.add, hac, hc, h']
    · by_cases hac : a.campaign_id = c
      · have hc : ¬ c = r.campaign_id := fun h => ha (by rw [hac, h])
        simp [upsert, ha, lookupCampaign, hac, hc]
      · simp [upsert, ha, lookupCampaign, hac, ih]

theorem map_campaign_id_upsert (r : AdRecord) (t : List CampaignAggregation) :
    (upsert r t).map CampaignAggregation.campaign_id =
      if r.campaign_id ∈ t.map CampaignAggregation.campaign_id
      then t.map CampaignAggregation.campaign_id
      else t.map CampaignAggregation.campaign_id ++ [r.campaign_id] := by
  induction t with
  | nil => simp [upsert, CampaignAggregation.new]
  | cons a t ih =>
    by_cases ha : a.campaign_id = r.campaign_id
    · simp [upsert, ha, CampaignAggregation.add]
    · have hra : ¬ r.campaign_id = a.campaign_id := fun h => ha h.symm
      rw [List.map_cons, upsert]
      rw [if_neg ha, List.map_cons, ih]
      by_cases hm : r.campaign_id ∈ t.map CampaignAggregation.campaign_id
      · simp [hm, hra]
      · simp [hm, hra]

theorem nodup_keys_foldl (records : List AdRecord) :
    ∀ t : List CampaignAggregation,
      (t.map CampaignAggregation.campaign_id).Nodup →
      (((records.foldl (fun t r => upsert r t) t)).map
        CampaignAggregation.campaign_id).Nodup := by
  induction records with
  | nil => intro t ht; simpa using ht
  | cons r rs ih =>
    intro t ht
    rw [List.foldl_cons]
    refine ih _ ?_
    rw [map_campaign_id_upsert]
    by_cases hm : r.campaign_id ∈ t.map CampaignAggregation.campaign_id
    · simpa [hm] using ht
    · simp [hm, List.nodup_append, ht]

theorem nodup_keys (records : List AdRecord) :
    ((aggregations records).map CampaignAggregation.campaign_id).Nodup :=
  nodup_keys_foldl records [] (by simp)

theorem rowsFor_append (c : String) (xs ys : List AdRecord) :
    rowsFor c (xs ++ ys) = rowsFor c xs ++ rowsFor c ys := by
  induction xs with
  | nil => simp [rowsFor]
  | cons r rs ih =>
    by_cases h : r.campaign_id = c <;> simp [rowsFor, h, ih]

theorem rowsFor_eq_nil (c : String) (records : List AdRecord)
    (h : c ∉ records.map AdRecord.campaign_id) : rowsFor c records = [] := by
  induction records with
  | nil => rfl
  | cons r rs ih =>
    simp only [List.map_cons, List.mem_cons] at h
    push_neg at h
    have hr : ¬ r.campaign_id = c := fun hh => h.1 hh.symm
    simp [rowsFor, hr, ih h.2]

theorem totalsRow_append_same (c : String) (rs : List AdRecord) (r : AdRecord)
    (hc : r.campaign_id = c) :
    totalsRow c (rs ++ [r]) = (totalsRow c rs).add r := by
  simp [totalsRow, CampaignAggregation.add, rowsFor_append, rowsFor, hc]

theorem totalsRow_append_other (c : String) (rs : List AdRecord) (r : AdRecord)
    (hc : ¬ r.campaign_id = c) :
    totalsRow c (rs ++ [r]) = totalsRow c rs := by
  simp [totalsRow, rowsFor_append, rowsFor, hc]

theorem totalsRow_seed (c : String) (rs : List AdRecord) (r : AdRecord)
    (hc : r.campaign_id = c) (hm : c ∉ rs.map AdRecord.campaign_id) :
    totalsRow c (rs ++ [r]) = CampaignAggregation.new r := by
  simp [totalsRow, CampaignAggregation.new, rowsFor_append, rowsFor, hc,
    rowsFor_eq_nil c rs hm]

theorem lookupCampaign_aggregations (records : List AdRecord) (c : String) :
    lookupCampaign c (aggregations records) =
      if c ∈ records.map AdRecord.campaign_id then some (totalsRow c records)
      else none := by
  induction records using List.reverseRecOn with
  | nil => simp [aggregations, lookupCampaign]
  | append_singleton rs r ih =>
    have hagg : aggregations (rs ++ [r]) = upsert r (aggregations rs) := by
      simp [aggregations, List.foldl_append]
    rw [hagg, lookupCampaign_upsert, ih]
    by_cases hc : c = r.campaign_id
    · rw [if_pos hc]
      have hmem : c ∈ (rs ++ [r]).map AdRecord.campaign_id := by
        simp [hc]
      rw [if_pos hmem]
      by_cases hm : c ∈ rs.map AdRecord.campaign_id
      · rw [if_pos hm]
        simp only [Option.elim]
        rw [totalsRow_append_same c rs r hc.symm]
      · rw [if_neg hm]
        simp only [Option.elim]
        rw [totalsRow_seed c rs r hc.symm hm]
    · rw [if_neg hc]
      have hmem : c ∈ (rs ++ [r]).map AdRecord.campaign_id ↔
          c ∈ rs.map AdRecord.campaign_id := by
        simp [hc]
      rw [totalsRow_append_other c rs r (fun h => hc h.symm)]
      by_cases hm : c ∈ rs.map AdRecord.campaign_id
      · rw [if_pos hm, if_pos (hmem.mpr hm)]
      · rw [if_neg hm, if_neg (fun h => hm (hmem.mp h))]

theorem lookupCampaign_isSome (c : String) (t : List CampaignAggregation) :
    (lookupCampaign c t).isSome = true ↔
      c ∈ t.map CampaignAggregation.campaign_id := by
  induction t with
  | nil => simp [lookupCampaign]
  | cons a t ih =>
    by_cases h : a.campaign_id = c
    · simp [lookupCampaign, h]
    · have h' : ¬ c = a.campaign_id := fun hh => h hh.symm
      simp [lookupCampaign, h, h', ih]

theorem lookupCampaign_of_mem :
    ∀ t : List CampaignAggregation,
      (t.map CampaignAggregation.campaign_id).Nodup →
      ∀ a ∈ t, lookupCampaign a.campaign_id t = some a
  | [], _, a, ha => absurd ha (List.not_mem_nil a)
  | b :: t, hnd, a, ha => by
    rw [List.map_cons, List.nodup_cons] at hnd
    rcases List.mem_cons.mp ha with rfl | hat
    · simp [lookupCampaign]
    · by_cases hb : b.campaign_id = a.campaign_id
      · have : b.campaign_id ∈ t.map CampaignAggregation.campaign_id := by
          rw [hb]
          exact List.mem_map_of_mem CampaignAggregation.campaign_id hat
        exact absurd this hnd.1
      · rw [lookupCampaign, if_neg hb]
        exact lookupCampaign_of_mem t hnd.2 a hat

/-- **C1**: after the streaming pass the table holds exactly one
accumulator per distinct `campaign_id` of the input, and each
accumulator's four totals equal the exact field sums over that campaign's
rows (the first row seeds the accumulator, later rows are added in). -/
theorem aggregation_table_correct (records : List AdRecord) :
    (((aggregations records).map CampaignAggregation.campaign_id).Nodup) ∧
    (∀ c : String,
      c ∈ (aggregations records).map CampaignAggregation.campaign_id ↔
      c ∈ records.map AdRecord.campaign_id) ∧
    (∀ a ∈ aggregations records,
      a.total_impressions =
        ((rowsFor a.campaign_id records).map AdRecord.impressions).sum ∧
      a.total_clicks =
        ((rowsFor a.campaign_id records).map AdRecord.clicks).sum ∧
      a.total_spend =
        ((rowsFor a.campaign_id records).map AdRecord.spend).sum ∧
      a.total_conversions =
        ((rowsFor a.campaign_id records).map AdRecord.conversions).sum) := by
  have hnd := nodup_keys records
  refine ⟨hnd, ?_, ?_⟩
  · intro c
    rw [← lookupCampaign_isSome, lookupCampaign_aggregations]
    by_cases hm : c ∈ records.map AdRecord.campaign_id <;> simp [hm]
  · intro a ha
    have h1 := lookupCampaign_of_mem _ hnd a ha
    have h2 := lookupCampaign_aggregations records a.campaign_id
    by_cases hm : a.campaign_id ∈ records.map AdRecord.campaign_id
    · rw [if_pos hm, h1] at h2
      have heq : a = totalsRow a.campaign_id records := Option.some.inj h2
      refine ⟨?_, ?_, ?_, ?_⟩ <;> (rw [heq]; simp [totalsRow])
    · rw [if_neg hm, h1] at h2
      exact Option.noConfusion h2

/-!  ## Order-invariance of the totals  -/

theorem rowsFor_eq_filter (c : String) (records : List AdRecord) :
    rowsFor c records = records.filter (fun r => r.campaign_id = c) := by
  induction records with
  | nil => rfl
  | cons r rs ih =>
    by_cases h : r.campaign_id = c <;> simp [rowsFor, List.filter_cons, h, ih]

theorem rowsFor_perm (c : String) (rs rs' : List AdRecord)
    (h : rs.Perm rs') : (rowsFor c rs).Perm (rowsFor c rs') := by
  rw [rowsFor_eq_filter, rowsFor_eq_filter]
  exact h.filter _

/-- **C7** (as amended): permuting the input rows leaves every campaign's
totals unchanged as exact mathematical sums — the three unsigned-integer
totals exactly, and the spend total under exact (real-number) addition.
The machine-precision f64 spend sum itself is *not* order-invariant; see
`float_spend_total_order_dependent` below. -/
theorem totals_order_invariant (rs rs' : List AdRecord) (h : rs.Perm rs')
    (c : String) :
    (lookupCampaign c (aggregations rs)).map aggTotals =
    (lookupCampaign c (aggregations rs')).map aggTotals := by
  rw [lookupCampaign_aggregations, lookupCampaign_aggregations]
  have hmem : c ∈ rs.map AdRecord.campaign_id ↔
      c ∈ rs'.map AdRecord.campaign_id := (h.map AdRecord.campaign_id).mem_iff
  by_cases hm : c ∈ rs.map AdRecord.campaign_id
  · rw [if_pos hm, if_pos (hmem.mp hm)]
    have hp := rowsFor_perm c rs rs' h
    have h1 : ((rowsFor c rs).map AdRecord.impressions).sum =
        ((rowsFor c rs').map AdRecord.impressions).sum :=
      (hp.map AdRecord.impressions).sum_eq
    have h2 : ((rowsFor c rs).map AdRecord.clicks).sum =
        ((rowsFor c rs').map AdRecord.clicks).sum :=
      (hp.map AdRecord.clicks).sum_eq
    have h3 : ((rowsFor c rs).map AdRecord.spend).sum =
        ((rowsFor c rs').map AdRecord.spend).sum :=
      (hp.map AdRecord.spend).sum_eq
    have h4 : ((rowsFor c rs).map AdRecord.conversions).sum =
        ((rowsFor c rs').map AdRecord.conversions).sum :=
      (hp.map AdRecord.conversions).sum_eq
    simp [aggTotals, totalsRow, h1, h2, h3, h4]
  · rw [if_neg hm, if_neg (fun hh => hm (hmem.mpr hh))]

def demoRow1 : AdRecord := ⟨"camp1", "2024-01-01", 1000, 50, 25, 5⟩

def demoRow2 : AdRecord := ⟨"camp2", "2024-01-02", 400, 10, 8, 0⟩

theorem totals_order_invariant_witness :
    ([demoRow1, demoRow2].Perm [demoRow2, demoRow1]) ∧
    ((lookupCampaign "camp1" (aggregations [demoRow1, demoRow2])).map
        aggTotals =
      (lookupCampaign "camp1" (aggregations [demoRow2, demoRow1])).map
        aggTotals) :=
  ⟨List.Perm.swap demoRow2 demoRow1 [],
    totals_order_invariant _ _ (List.Perm.swap demoRow2 demoRow1 []) "camp1"⟩

/-!  ## Accumulator invariants  -/

/-- **C9**: folding an event never decreases any of the four totals (for
non-negative spend), and neither `add` nor `new` ever gives an
accumulator a campaign identifier other than the one it was created
with. -/
theorem add_monotone_id_immutable (a : CampaignAggregation) (r : AdRecord)
    (h : 0 ≤ r.spend) :
    a.total_impressions ≤ (a.add r).total_impressions ∧
    a.total_clicks ≤ (a.add r).total_clicks ∧
    a.total_spend ≤ (a.add r).total_spend ∧
    a.total_conversions ≤ (a.add r).total_conversions ∧
    (a.add r).campaign_id = a.campaign_id ∧
    (CampaignAggregation.new r).campaign_id = r.campaign_id := by
  refine ⟨Nat.le_add_right _ _, Nat.le_add_right _ _, ?_,
    Nat.le_add_right _ _, rfl, rfl⟩
  exact le_add_of_nonneg_right h

def demoAgg : CampaignAggregation := ⟨"camp9", 10, 2, 3, 1⟩

theorem add_monotone_id_immutable_witness :
    (0 : ℚ) ≤ demoRow1.spend ∧
    (demoAgg.total_impressions ≤ (demoAgg.add demoRow1).total_impressions ∧
     demoAgg.total_clicks ≤ (demoAgg.add demoRow1).total_clicks ∧
     demoAgg.total_spend ≤ (demoAgg.add demoRow1).total_spend ∧
     demoAgg.total_conversions ≤ (demoAgg.add demoRow1).total_conversions ∧
     (demoAgg.add demoRow1).campaign_id = demoAgg.campaign_id ∧
     (CampaignAggregation.new demoRow1).campaign_id =
       demoRow1.campaign_id) :=
  ⟨by norm_num [demoRow1],
    add_monotone_id_immutable demoAgg demoRow1 (by norm_num [demoRow1])⟩

/-!  ## The metric calculator  -/

/-- **C5**: `ctr` is explicitly undefined exactly when there are no
impressions and is the exact quotient otherwise; `cpa` likewise for
conversions — division by zero is never silently mapped to a number. -/
theorem metrics_undefined_iff (a : CampaignAggregation) :
    (a.ctr = none ↔ a.total_impressions = 0) ∧
    (a.total_impressions ≠ 0 →
      a.ctr = some ((a.total_clicks : ℚ) / (a.total_impressions : ℚ))) ∧
    (a.cpa = none ↔ a.total_conversions = 0) ∧
    (a.total_conversions ≠ 0 →
      a.cpa = some (a.total_spend / (a.total_conversions : ℚ))) := by
  unfold CampaignAggregation.ctr CampaignAggregation.cpa
  refine ⟨?_, ?_, ?_, ?_⟩ <;> split_ifs with h <;> simp [h]

/-!  ## The two rankings  -/

theorem cmpQ_ne_gt (x y : ℚ) : cmpQ x y ≠ .gt ↔ x ≤ y := by
  unfold cmpQ
  split_ifs with h1 h2
  · simp [h1.le]
  · simp [not_le.mpr h2]
  · simp [le_of_not_lt h2]

theorem ctrLe_total (a b : CampaignAggregation) : ctrLe a b ∨ ctrLe b a := by
  unfold ctrLe ctrComparator
  cases ha : a.ctr with
  | none =>
    cases hb : b.ctr with
    | none => left; simp
    | some y => right; simp
  | some x =>
    cases hb : b.ctr with
    | none => left; simp
    | some y =>
      rcases le_total y x with h | h
      · left; rw [cmpQ_ne_gt]; exact h
      · right; rw [cmpQ_ne_gt]; exact h

theorem ctrLe_trans (a b c : CampaignAggregation)
    (hab : ctrLe a b) (hbc : ctrLe b c) : ctrLe a c := by
  unfold ctrLe ctrComparator at hab hbc ⊢
  cases ha : a.ctr with
  | none =>
    cases hb : b.ctr with
    | some y => rw [ha, hb] at hab; simp at hab
    | none =>
      cases hc : c.ctr with
      | some z => rw [hb, hc] at hbc; simp at hbc
      | none => simp
  | some x =>
    cases hc : c.ctr with
    | none => simp
    | some z =>
      cases hb : b.ctr with
      | none => rw [hb, hc] at hbc; simp at hbc
      | some y =>
        rw [ha, hb] at hab
        rw [hb, hc] at hbc
        rw [cmpQ_ne_gt] at hab hbc ⊢
        exact hbc.trans hab

theorem ctrLe_elim (a b : CampaignAggregation) (h : ctrLe a b) :
    (∀ x y, a.ctr = some x → b.ctr = some y → y ≤ x) ∧
    (a.ctr = none → b.ctr = none) := by
  unfold ctrLe ctrComparator at h
  constructor
  · intro x y hx hy
    rw [hx, hy, cmpQ_ne_gt] at h
    exact h
  · intro ha
    cases hb : b.ctr with
    | none => rfl
    | some y => rw [ha, hb] at h; simp at h

theorem cpa_some_of_conversions (a : CampaignAggregation)
    (h : a.total_conversions ≠ 0) :
    a.cpa = some (a.total_spend / (a.total_conversions : ℚ)) := by
  unfold CampaignAggregation.cpa
  rw [if_neg h]

theorem cpaLe_total_on (a b : CampaignAggregation)
    (hpa : a.total_conversions ≠ 0) (hpb : b.total_conversions ≠ 0) :
    cpaLe a b ∨ cpaLe b a := by
  unfold cpaLe cpaComparator
  rw [cpa_some_of_conversions a hpa, cpa_some_of_conversions b hpb]
  rcases le_total (a.total_spend / (a.total_conversions : ℚ))
    (b.total_spend / (b.total_conversions : ℚ)) with h | h
  · left; rw [cmpQ_ne_gt]; exact h
  · right; rw [cmpQ_ne_gt]; exact h

theorem cpaLe_trans_on (a b c : CampaignAggregation)
    (hpa : a.total_conversions ≠ 0) (hpb : b.total_conversions ≠ 0)
    (hpc : c.total_conversions ≠ 0)
    (hab : cpaLe a b) (hbc : cpaLe b c) : cpaLe a c := by
  unfold cpaLe cpaComparator at hab hbc ⊢
  rw [cpa_some_of_conversions a hpa, cpa_some_of_conversions b hpb] at hab
  rw [cpa_some_of_conversions b hpb, cpa_some_of_conversions c hpc] at hbc
  rw [cpa_some_of_conversions a hpa, cpa_some_of_conversions c hpc]
  rw [cmpQ_ne_gt] at hab hbc ⊢
  exact hab.trans hbc

theorem cpaLe_elim (a b : CampaignAggregation) (h : cpaLe a b) :
    ∀ x y, a.cpa = some x → b.cpa = some y → x ≤ y := by
  intro x y hx hy
  unfold cpaLe cpaComparator at h
  rw [hx, hy, cmpQ_ne_gt] at h
  exact h

theorem pairwise_orderedInsert {α : Type} (r : α → α → Prop) [DecidableRel r]
    (p : α → Prop) (htot : ∀ a b, p a → p b → r a b ∨ r b a)
    (htrans : ∀ a b c, p a → p b → p c → r a b → r b c → r a c) :
    ∀ (a : α) (l : List α), p a → (∀ x ∈ l, p x) → l.Pairwise r →
      (List.orderedInsert r a l).Pairwise r
  | a, [], _, _, _ => by simp [List.orderedInsert]
  | a, b :: l, hpa, hpl, hs => by
    rw [List.orderedInsert]
    by_cases hab : r a b
    · rw [if_pos hab, List.pairwise_cons]
      refine ⟨?_, hs⟩
      intro x hx
      rcases List.mem_cons.mp hx with rfl | hxl
      · exact hab
      · exact htrans a b x hpa (hpl b (List.mem_cons_self b l))
          (hpl x (List.mem_cons_of_mem b hxl)) hab
          ((List.pairwise_cons.mp hs).1 x hxl)
    · rw [if_neg hab]
      have hba : r b a :=
        (htot a b hpa (hpl b (List.mem_cons_self b l))).resolve_left hab
      rw [List.pairwise_cons] at hs
      rw [List.pairwise_cons]
      refine ⟨?_, pairwise_orderedInsert r p htot htrans a l hpa
        (fun x hx => hpl x (List.mem_cons_of_mem b hx)) hs.2⟩
      intro x hx
      rcases (List.mem_orderedInsert r).mp hx with rfl | hxl
      · exact hba
      · exact hs.1 x hxl

theorem pairwise_insertionSort {α : Type} (r : α → α → Prop) [DecidableRel r]
    (p : α → Prop) (htot : ∀ a b, p a → p b → r a b ∨ r b a)
    (htrans : ∀ a b c, p a → p b → p c → r a b → r b c → r a c) :
    ∀ l : List α, (∀ x ∈ l, p x) → (List.insertionSort r l).Pairwise r
  | [], _ => by simp [List.insertionSort]
  | a :: l, hp => by
    rw [List.insertionSort]
    refine pairwise_orderedInsert r p htot htrans a _
      (hp a (List.mem_cons_self a l)) ?_ ?_
    · intro x hx
      exact hp x (List.mem_cons_of_mem a ((List.mem_insertionSort r).mp hx))
    · exact pairwise_insertionSort r p htot htrans l
        (fun x hx => hp x (List.mem_cons_of_mem a hx))

/-- **C2**: over any collection with pairwise-distinct campaign
identifiers (which C1 shows the aggregation table always yields), the CTR
ranking has at most 10 rows, repeats no campaign identifier, and is
ordered so that defined CTRs descend and every undefined-CTR accumulator
comes after every defined one. -/
theorem ctr_ranking_correct (campaigns : List CampaignAggregation)
    (h : (campaigns.map CampaignAggregation.campaign_id).Nodup) :
    (top10_ctr campaigns).length ≤ 10 ∧
    ((top10_ctr campaigns).map CampaignAggregation.campaign_id).Nodup ∧
    (top10_ctr campaigns).Pairwise (fun a b =>
      (∀ x y, a.ctr = some x → b.ctr = some y → y ≤ x) ∧
      (a.ctr = none → b.ctr = none)) := by
  refine ⟨?_, ?_, ?_⟩
  · unfold top10_ctr
    rw [List.length_take]
    exact min_le_left _ _
  · unfold top10_ctr
    have hperm : (sortByCtr campaigns).Perm campaigns :=
      List.perm_insertionSort ctrLe campaigns
    have hnd : ((sortByCtr campaigns).map
        CampaignAggregation.campaign_id).Nodup :=
      ((hperm.map CampaignAggregation.campaign_id).nodup_iff).mpr h
    rw [List.map_take]
    exact List.Nodup.sublist (List.take_sublist _ _) hnd
  · have hsorted : (sortByCtr campaigns).Pairwise ctrLe :=
      pairwise_insertionSort ctrLe (fun _ => True)
        (fun a b _ _ => ctrLe_total a b)
        (fun a b c _ _ _ => ctrLe_trans a b c) campaigns
        (fun _ _ => trivial)
    have htake : (top10_ctr campaigns).Pairwise ctrLe :=
      List.Pairwise.sublist (List.take_sublist _ _) hsorted
    exact htake.imp (fun hab => ctrLe_elim _ _ hab)

def demoAggA : CampaignAggregation := ⟨"a", 100, 30, 10, 2⟩

def demoAggB : CampaignAggregation := ⟨"b", 0, 0, 5, 0⟩

def demoColl : List CampaignAggregation := [demoAggA, demoAggB]

theorem ctr_ranking_correct_witness :
    ((demoColl.map CampaignAggregation.campaign_id).Nodup) ∧
    ((top10_ctr demoColl).length ≤ 10 ∧
     ((top10_ctr demoColl).map CampaignAggregation.campaign_id).Nodup ∧
     (top10_ctr demoColl).Pairwise (fun a b =>
       (∀ x y, a.ctr = some x → b.ctr = some y → y ≤ x) ∧
       (a.ctr = none → b.ctr = none))) :=
  ⟨by decide, ctr_ranking_correct demoColl (by decide)⟩

/-- **C3**: the CPA ranking filters out every zero-conversion accumulator
entirely, sorts the remainder ascending by CPA, and truncates to the
first 10 (all qualifying rows when fewer than 10 qualify). -/
theorem cpa_ranking_correct (campaigns : List CampaignAggregation) :
    (top10_cpa campaigns).length ≤ 10 ∧
    (∀ a ∈ top10_cpa campaigns, a.total_conversions ≠ 0) ∧
    (top10_cpa campaigns).Pairwise (fun a b =>
      ∀ x y, a.cpa = some x → b.cpa = some y → x ≤ y) ∧
    (top10_cpa campaigns).length =
      min 10 (campaigns_with_conversions campaigns).length := by
  have hall : ∀ x ∈ campaigns_with_conversions campaigns,
      x.total_conversions ≠ 0 := by
    intro x hx
    have := List.of_mem_filter hx
    exact Nat.pos_iff_ne_zero.mp (of_decide_eq_true this)
  have hmem : ∀ a ∈ top10_cpa campaigns, a.total_conversions ≠ 0 := by
    intro a ha
    have h1 : a ∈ sortByCpa campaigns :=
      (List.take_sublist _ _).subset ha
    exact hall a ((List.mem_insertionSort cpaLe).mp h1)
  refine ⟨?_, hmem, ?_, ?_⟩
  · unfold top10_cpa
    rw [List.length_take]
    exact min_le_left _ _
  · have hsorted : (sortByCpa campaigns).Pairwise cpaLe :=
      pairwise_insertionSort cpaLe (fun x => x.total_conversions ≠ 0)
        cpaLe_total_on cpaLe_trans_on
        (campaigns_with_conversions campaigns) hall
    have htake : (top10_cpa campaigns).Pairwise cpaLe :=
      List.Pairwise.sublist (List.take_sublist _ _) hsorted
    exact htake.imp (fun hab => cpaLe_elim _ _ hab)
  · unfold top10_cpa sortByCpa
    rw [List.length_take, (List.perm_insertionSort cpaLe _).length_eq]

/-!  ## The report writer  -/

theorem data_mem_write_ctr (l : List CampaignAggregation)
    (o : CampaignOutput) :
    CsvLine.data o ∈ write_ctr_report l ↔ ∃ c ∈ l, toOutput c = o := by
  cases l with
  | nil => simp [write_ctr_report]
  | cons a t =>
    show CsvLine.data o ∈
      CsvLine.header :: (a :: t).map (fun c => CsvLine.data (toOutput c)) ↔ _
    rw [List.mem_cons]
    simp only [List.mem_map]
    constructor
    · rintro (h | ⟨c, hc, he⟩)
      · exact absurd h (by simp)
      · exact ⟨c, hc, CsvLine.data.inj he⟩
    · rintro ⟨c, hc, he⟩
      exact Or.inr ⟨c, hc, by rw [he]⟩

theorem data_mem_write_cpa (l : List CampaignAggregation)
    (o : CampaignOutput) :
    CsvLine.data o ∈ write_cpa_report l ↔ ∃ c ∈ l, toOutput c = o := by
  cases l with
  | nil => simp [write_cpa_report]
  | cons a t =>
    show CsvLine.data o ∈
      CsvLine.header :: (a :: t).map (fun c => CsvLine.data (toOutput c)) ↔ _
    rw [List.mem_cons]
    simp only [List.mem_map]
    constructor
    · rintro (h | ⟨c, hc, he⟩)
      · exact absurd h (by simp)
      · exact ⟨c, hc, CsvLine.data.inj he⟩
    · rintro ⟨c, hc, he⟩
      exact Or.inr ⟨c, hc, by rw [he]⟩

theorem toOutput_cells (c : CampaignAggregation) :
    ((toOutput c).impressions = 0 → (toOutput c).ctr = 0) ∧
    ((toOutput c).impressions ≠ 0 →
      (toOutput c).ctr =
        ((toOutput c).clicks : ℚ) / ((toOutput c).impressions : ℚ)) ∧
    ((toOutput c).cpa = none ↔ (toOutput c).conversions = 0) := by
  refine ⟨?_, ?_, ?_⟩
  · intro h
    simp only [toOutput] at h ⊢
    simp [CampaignAggregation.ctr, h]
  · intro h
    simp only [toOutput] at h ⊢
    simp [CampaignAggregation.ctr, h]
  · simp only [toOutput]
    unfold CampaignAggregation.cpa
    split_ifs with h <;> simp [h]

/-- **C6**: in both report files every data row carries a numeric `ctr`
cell — `0` exactly when the campaign's CTR is undefined (zero
impressions), the true quotient otherwise — while the `cpa` cell is
empty (`none`) exactly when `total_conversions = 0`. -/
theorem report_cells_policy (campaigns : List CampaignAggregation) :
    (∀ o : CampaignOutput,
      CsvLine.data o ∈ write_ctr_report (top10_ctr campaigns) →
      (o.impressions = 0 → o.ctr = 0) ∧
      (o.impressions ≠ 0 → o.ctr = (o.clicks : ℚ) / (o.impressions : ℚ)) ∧
      (o.cpa = none ↔ o.conversions = 0)) ∧
    (∀ o : CampaignOutput,
      CsvLine.data o ∈ write_cpa_report (top10_cpa campaigns) →
      (o.impressions = 0 → o.ctr = 0) ∧
      (o.impressions ≠ 0 → o.ctr = (o.clicks : ℚ) / (o.impressions : ℚ)) ∧
      (o.cpa = none ↔ o.conversions = 0)) := by
  constructor
  · intro o ho
    obtain ⟨c, -, rfl⟩ := (data_mem_write_ctr _ o).mp ho
    exact toOutput_cells c
  · intro o ho
    obtain ⟨c, -, rfl⟩ := (data_mem_write_cpa _ o).mp ho
    exact toOutput_cells c

/-!  ## Error handling  -/

theorem foldRows_error (bad : RawRow) (e : RunError)
    (hbad : deserializeRow bad = .error e) :
    ∀ (pre suf : List RawRow) (t : List CampaignAggregation),
      (∀ r ∈ pre, ∃ a, deserializeRow r = .ok a) →
      foldRows (pre ++ bad :: suf) t = .error e
  | [], suf, t, _ => by
    rw [List.nil_append, foldRows, hbad]
  | r :: pre, suf, t, hpre => by
    obtain ⟨a, ha⟩ := hpre r (List.mem_cons_self r pre)
    rw [List.cons_append, foldRows, ha]
    exact foldRows_error bad e hbad pre suf (upsert a t)
      (fun x hx => hpre x (List.mem_cons_of_mem r hx))

/-- **C4**: the first row that fails to parse aborts the run with that
row's error — later rows are never folded (the result does not depend on
them), no output is produced, and the process exits non-zero. -/
theorem parse_failure_aborts (pre : List RawRow) (bad : RawRow)
    (suf : List RawRow) (e : RunError)
    (hpre : ∀ r ∈ pre, ∃ a, deserializeRow r = .ok a)
    (hbad : deserializeRow bad = .error e) :
    run (pre ++ bad :: suf) = .error e ∧
    run (pre ++ bad :: suf) = run (pre ++ [bad]) ∧
    exitCode (run (pre ++ bad :: suf)) = 1 := by
  have h1 : foldRows (pre ++ bad :: suf) [] = .error e :=
    foldRows_error bad e hbad pre suf [] hpre
  have h2 : foldRows (pre ++ [bad]) [] = .error e :=
    foldRows_error bad e hbad pre [] [] hpre
  refine ⟨?_, ?_, ?_⟩ <;> simp [run, h1, h2, exitCode, Except.map]

def goodRaw : RawRow := ⟨"camp1", "2024-01-01", "1000", "50", "25", "5"⟩

def badRaw : RawRow := ⟨"camp2", "2024-01-01", "abc", "50", "25", "5"⟩

theorem parse_failure_aborts_witness :
    (∀ r ∈ [goodRaw], ∃ a, deserializeRow r = Except.ok a) ∧
    deserializeRow badRaw = Except.error (RunError.parse badRaw) ∧
    (run ([goodRaw] ++ badRaw :: [goodRaw]) =
        Except.error (RunError.parse badRaw) ∧
      run ([goodRaw] ++ badRaw :: [goodRaw]) = run ([goodRaw] ++ [badRaw]) ∧
      exitCode (run ([goodRaw] ++ badRaw :: [goodRaw])) = 1) :=
  ⟨fun r hr => by
      rw [List.mem_singleton] at hr
      subst hr
      exact ⟨_, rfl⟩,
    rfl,
    parse_failure_aborts [goodRaw] badRaw [goodRaw] (RunError.parse badRaw)
      (fun r hr => by
        rw [List.mem_singleton] at hr
        subst hr
        exact ⟨_, rfl⟩)
      rfl⟩

/-!  ## Dependence on the hash-map iteration order, and empty input  -/

def tieRowA : AdRecord := ⟨"campA", "2024-01-01", 0, 0, 0, 0⟩

def tieRowB : AdRecord := ⟨"campB", "2024-01-01", 0, 0, 0, 0⟩

/-- **C8** (evidence for the code bug): the same aggregation table read
out in two different `into_values()` orders — both are permutations of
the same accumulators, and Rust's randomly seeded `HashMap` may produce
either across two runs — yields different report files, because the two
zero-impression campaigns tie in the CTR comparator and the stable sort
keeps whichever order the map produced. -/
theorem report_depends_on_iteration_order :
    (aggregations [tieRowA, tieRowB]).Perm
      [CampaignAggregation.new tieRowB, CampaignAggregation.new tieRowA] ∧
    reportsOn (aggregations [tieRowA, tieRowB]) ≠
      reportsOn [CampaignAggregation.new tieRowB,
        CampaignAggregation.new tieRowA] := by
  constructor
  · decide
  · decide

/-- **C10** counterexample: on an input with zero data rows the run
succeeds, but both report files are empty — they do not contain the
header row, because the `csv` writer only emits the header together with
the first data record. -/
theorem run_empty_input_files_headerless :
    run [] = Except.ok (RunOutput.mk [] []) ∧
    (∀ out : RunOutput, run [] = Except.ok out →
      out.ctrFile = [] ∧ out.cpaFile = [] ∧
      out.ctrFile ≠ [CsvLine.header] ∧ out.cpaFile ≠ [CsvLine.header]) := by
  have h0 : run ([] : List RawRow) = Except.ok (RunOutput.mk [] []) := rfl
  refine ⟨h0, ?_⟩
  intro out hout
  rw [h0] at hout
  cases Except.ok.inj hout
  exact ⟨rfl, rfl, by simp, by simp⟩

/-- **C10** as amended: on an input with zero data rows the run succeeds
with exit status 0 and both output files are created with zero data rows
(and, header emission being lazy, zero lines altogether). -/
theorem run_empty_input_succeeds :
    run [] = Except.ok (RunOutput.mk [] []) ∧
    exitCode (run []) = 0 ∧
    write_ctr_report (top10_ctr []) = [] ∧
    write_cpa_report (top10_cpa []) = [] :=
  ⟨rfl, rfl, rfl, rfl⟩

/-!  ## Machine-precision spend accumulation

The theorems above treat `spend` in exact rational arithmetic.  The
source, however, keeps `total_spend` as an `f64` and accumulates it with
`total_spend += record.spend` (line 118), and IEEE binary64 addition is
commutative but not associative.  The definitions below model binary64
round-to-nearest-even for the normal-range magnitudes that occur here,
and exhibit a concrete input on which the running spend total depends on
row order.  -/

/-- Round a rational to the nearest integer, ties to the even integer
(the integer-granularity core of IEEE round-to-nearest-even). -/
def roundHalfEven (q : ℚ) : ℤ :=
  if q - ⌊q⌋ < 1/2 then ⌊q⌋
  else if 1/2 < q - ⌊q⌋ then ⌊q⌋ + 1
  else if ⌊q⌋ % 2 = 0 then ⌊q⌋ else ⌊q⌋ + 1

/-- IEEE binary64 rounding of a real value in the normal range: scale
the magnitude into `[2^52, 2^53)`, round to nearest even, scale back
(overflow and subnormals, irrelevant at these magnitudes, are not
modelled). -/
def fl64 (q : ℚ) : ℚ :=
  if q = 0 then 0
  else (if q < 0 then (-1 : ℚ) else 1) *
    (roundHalfEven (|q| * (2:ℚ) ^ ((52:ℤ) - Int.log 2 |q|)) : ℚ) *
    (2:ℚ) ^ (Int.log 2 |q| - 52)

/-- `f64` addition: the exact sum rounded to the nearest double — the
semantics of `total_spend += record.spend` at `main.rs` line 118. -/
def addF64 (x y : ℚ) : ℚ := fl64 (x + y)

/-- The spend total the source's `f64` accumulator reaches for one
campaign's rows in input order: the first row seeds it
(`CampaignAggregation::new`) and every later row is added at machine
precision (`add`, line 118). -/
def machineSpendTotal : List ℚ → ℚ
  | [] => 0
  | s :: rest => rest.foldl addF64 s

theorem Intlog_two_eq {q : ℚ} {e : ℤ} (hq : 0 < q)
    (h1 : (2:ℚ) ^ e ≤ q) (h2 : q < (2:ℚ) ^ (e + 1)) :
    Int.log 2 q = e := by
  have hle : e ≤ Int.log 2 q :=
    (Int.zpow_le_iff_le_log one_lt_two hq).mp (by exact_mod_cast h1)
  have hlt : Int.log 2 q < e + 1 :=
    (Int.lt_zpow_iff_log_lt one_lt_two hq).mp (by exact_mod_cast h2)
  omega

theorem roundHalfEven_of_lt {q : ℚ} {f : ℤ} (h1 : (f:ℚ) ≤ q)
    (h2 : q < f + 1) (hr : q - f < 1/2) : roundHalfEven q = f := by
  have hfl : ⌊q⌋ = f := Int.floor_eq_iff.mpr ⟨h1, h2⟩
  unfold roundHalfEven
  rw [hfl, if_pos hr]

theorem roundHalfEven_of_gt {q : ℚ} {f : ℤ} (h1 : (f:ℚ) ≤ q)
    (h2 : q < f + 1) (hr : 1/2 < q - f) : roundHalfEven q = f + 1 := by
  have hfl : ⌊q⌋ = f := Int.floor_eq_iff.mpr ⟨h1, h2⟩
  unfold roundHalfEven
  rw [hfl, if_neg (by linarith), if_pos hr]

theorem roundHalfEven_of_tie_odd {q : ℚ} {f : ℤ} (h1 : (f:ℚ) ≤ q)
    (h2 : q < f + 1) (hr : q - f = 1/2) (ho : ¬ f % 2 = 0) :
    roundHalfEven q = f + 1 := by
  have hfl : ⌊q⌋ = f := Int.floor_eq_iff.mpr ⟨h1, h2⟩
  unfold roundHalfEven
  rw [hfl, hr, if_neg (by norm_num), if_neg (by norm_num), if_neg ho]

theorem fl64_eval {q : ℚ} {e n : ℤ} (hq : 0 < q)
    (h1 : (2:ℚ) ^ e ≤ q) (h2 : q < (2:ℚ) ^ (e + 1))
    (hr : roundHalfEven (q * (2:ℚ) ^ ((52:ℤ) - e)) = n) :
    fl64 q = (n : ℚ) * (2:ℚ) ^ (e - 52) := by
  unfold fl64
  rw [if_neg hq.ne', abs_of_pos hq, Intlog_two_eq hq h1 h2, hr,
    if_neg (not_lt.mpr hq.le), one_mul]

/-- The double the input parser produces for the cell `0.1`. -/
theorem fl64_tenth : fl64 (1/10 : ℚ) = 7205759403792794 / 2 ^ 56 := by
  have h : fl64 (1/10 : ℚ) =
      ((7205759403792794 : ℤ) : ℚ) * (2:ℚ) ^ ((-4 : ℤ) - 52) := by
    refine fl64_eval (by norm_num) (by norm_num) (by norm_num) ?_
    have hs : ((52:ℤ) - (-4)) = ((56:ℕ) : ℤ) := by norm_num
    rw [hs, zpow_natCast]
    exact roundHalfEven_of_gt (f := 7205759403792793)
      (by norm_num) (by norm_num) (by norm_num)
  rw [h]
  norm_num

/-- The double the input parser produces for the cell `0.2`. -/
theorem fl64_fifth : fl64 (2/10 : ℚ) = 7205759403792794 / 2 ^ 55 := by
  have h : fl64 (2/10 : ℚ) =
      ((7205759403792794 : ℤ) : ℚ) * (2:ℚ) ^ ((-3 : ℤ) - 52) := by
    refine fl64_eval (by norm_num) (by norm_num) (by norm_num) ?_
    have hs : ((52:ℤ) - (-3)) = ((55:ℕ) : ℤ) := by norm_num
    rw [hs, zpow_natCast]
    exact roundHalfEven_of_gt (f := 7205759403792793)
      (by norm_num) (by norm_num) (by norm_num)
  rw [h]
  norm_num

/-- The double the input parser produces for the cell `0.3`. -/
theorem fl64_threeTenths : fl64 (3/10 : ℚ) = 5404319552844595 / 2 ^ 54 := by
  have h : fl64 (3/10 : ℚ) =
      ((5404319552844595 : ℤ) : ℚ) * (2:ℚ) ^ ((-2 : ℤ) - 52) := by
    refine fl64_eval (by norm_num) (by norm_num) (by norm_num) ?_
    have hs : ((52:ℤ) - (-2)) = ((54:ℕ) : ℤ) := by norm_num
    rw [hs, zpow_natCast]
    exact roundHalfEven_of_lt (f := 5404319552844595)
      (by norm_num) (by norm_num) (by norm_num)
  rw [h]
  norm_num

theorem addF64_d1_d2 :
    addF64 (7205759403792794 / 2 ^ 56) (7205759403792794 / 2 ^ 55) =
      5404319552844596 / 2 ^ 54 := by
  unfold addF64
  have hsum : (7205759403792794 / 2 ^ 56 : ℚ) + 7205759403792794 / 2 ^ 55 =
      21617278211378382 / 2 ^ 56 := by norm_num
  rw [hsum]
  have h : fl64 (21617278211378382 / 2 ^ 56 : ℚ) =
      ((5404319552844596 : ℤ) : ℚ) * (2:ℚ) ^ ((-2 : ℤ) - 52) := by
    refine fl64_eval (by norm_num) (by norm_num) (by norm_num) ?_
    have hs : ((52:ℤ) - (-2)) = ((54:ℕ) : ℤ) := by norm_num
    rw [hs, zpow_natCast]
    have htie : roundHalfEven ((21617278211378382 / 2 ^ 56 : ℚ) * 2 ^ 54) =
        5404319552844595 + 1 :=
      roundHalfEven_of_tie_odd (f := 5404319552844595)
        (by norm_num) (by norm_num) (by norm_num) (by decide)
    rw [htie]
    norm_num
  rw [h]
  norm_num

theorem addF64_s12_d3 :
    addF64 (5404319552844596 / 2 ^ 54) (5404319552844595 / 2 ^ 54) =
      5404319552844596 / 2 ^ 53 := by
  unfold addF64
  have hsum : (5404319552844596 / 2 ^ 54 : ℚ) + 5404319552844595 / 2 ^ 54 =
      10808639105689191 / 2 ^ 54 := by norm_num
  rw [hsum]
  have h : fl64 (10808639105689191 / 2 ^ 54 : ℚ) =
      ((5404319552844596 : ℤ) : ℚ) * (2:ℚ) ^ ((-1 : ℤ) - 52) := by
    refine fl64_eval (by norm_num) (by norm_num) (by norm_num) ?_
    have hs : ((52:ℤ) - (-1)) = ((53:ℕ) : ℤ) := by norm_num
    rw [hs, zpow_natCast]
    have htie : roundHalfEven ((10808639105689191 / 2 ^ 54 : ℚ) * 2 ^ 53) =
        5404319552844595 + 1 :=
      roundHalfEven_of_tie_odd (f := 5404319552844595)
        (by norm_num) (by norm_num) (by norm_num) (by decide)
    rw [htie]
    norm_num
  rw [h]
  norm_num

theorem addF64_d3_d2 :
    addF64 (5404319552844595 / 2 ^ 54) (7205759403792794 / 2 ^ 55) =
      1 / 2 := by
  unfold addF64
  have hsum : (5404319552844595 / 2 ^ 54 : ℚ) + 7205759403792794 / 2 ^ 55 =
      1 / 2 := by norm_num
  rw [hsum]
  have h : fl64 (1 / 2 : ℚ) =
      ((4503599627370496 : ℤ) : ℚ) * (2:ℚ) ^ ((-1 : ℤ) - 52) := by
    refine fl64_eval (by norm_num) (by norm_num) (by norm_num) ?_
    have hs : ((52:ℤ) - (-1)) = ((53:ℕ) : ℤ) := by norm_num
    rw [hs, zpow_natCast]
    exact roundHalfEven_of_lt (f := 4503599627370496)
      (by norm_num) (by norm_num) (by norm_num)
  rw [h]
  norm_num

theorem addF64_half_d1 :
    addF64 (1 / 2) (7205759403792794 / 2 ^ 56) =
      5404319552844595 / 2 ^ 53 := by
  unfold addF64
  have hsum : (1 / 2 : ℚ) + 7205759403792794 / 2 ^ 56 =
      43234556422756762 / 2 ^ 56 := by norm_num
  rw [hsum]
  have h : fl64 (43234556422756762 / 2 ^ 56 : ℚ) =
      ((5404319552844595 : ℤ) : ℚ) * (2:ℚ) ^ ((-1 : ℤ) - 52) := by
    refine fl64_eval (by norm_num) (by norm_num) (by norm_num) ?_
    have hs : ((52:ℤ) - (-1)) = ((53:ℕ) : ℤ) := by norm_num
    rw [hs, zpow_natCast]
    exact roundHalfEven_of_lt (f := 5404319552844595)
      (by norm_num) (by norm_num) (by norm_num)
  rw [h]
  norm_num

/-- **C7** counterexample: at machine precision the spend total is not
order-invariant.  One campaign's rows carry the doubles parsed from the
cells `0.1`, `0.2`, `0.3`; accumulating them in input order
(`(0.1 + 0.2) + 0.3`, as `new` then `add` do) yields the double
`0.6000000000000001`, while the reversed row order
(`(0.3 + 0.2) + 0.1`) yields `0.6` — the permuted input changes the
stored `total_spend`, so the claim's "exactly unchanged, including the
floating-point spend total" is false of f64 accumulation. -/
theorem float_spend_total_order_dependent :
    [fl64 (1/10), fl64 (2/10), fl64 (3/10)].Perm
      [fl64 (3/10), fl64 (2/10), fl64 (1/10)] ∧
    machineSpendTotal [fl64 (1/10), fl64 (2/10), fl64 (3/10)] ≠
      machineSpendTotal [fl64 (3/10), fl64 (2/10), fl64 (1/10)] := by
  constructor
  · exact (List.reverse_perm [fl64 (1/10), fl64 (2/10), fl64 (3/10)]).symm
  · simp only [machineSpendTotal]
    rw [fl64_tenth, fl64_fifth, fl64_threeTenths]
    rw [List.foldl_cons, List.foldl_cons, List.foldl_nil,
      List.foldl_cons, List.foldl_cons, List.foldl_nil]
    rw [addF64_d1_d2, addF64_s12_d3, addF64_d3_d2, addF64_half_d1]
    norm_num
